import Mathlib

/-!
Verification development for the text-substitution engine of
electron-text-substitutions.

Strings are modelled as lists of characters (`Str`); for every string this
code handles, character indices agree with the JavaScript UTF-16 indices
(all characters in play are in the basic multilingual plane).

Every regular expression built by `src/regular-expressions.js` has the shape
`(G1) MIDDLE (G2)`: a first capture group, a literal or fixed middle part,
and a second capture group.  The embedding keeps that shape explicitly
(fields `g1`, `mid`, `g2` of `ReplacementItem`) and gives it the JavaScript
matching semantics with a small backtracking engine (`matchRE`, `tryPattern`,
`findMatch`): candidate ends are produced in the preference order of the
JavaScript engine (alternation left to right, greedy repetition longest
first), and the leftmost starting position wins.
-/

/-- A string, modelled as its list of characters. -/
abbrev Str := List Char

/-- The word-boundary character class of `regular-expressions.js`:
the source class is a space, newline, carriage return, tab, then
`.,:;|{}()<>`, straight single and double quote, backtick, `+!?`,
guillemets, curly double and single quotes, single angle quotes,
em dash, en dash, minus sign and hyphen. -/
def wordBoundaryChars : Str :=
  [' ', '\n', '\r', '\t', '.', ',', ':', ';', '|', Char.ofNat 123,
   Char.ofNat 125, '(', ')', '<', '>', Char.ofNat 39, Char.ofNat 34,
   Char.ofNat 96, '+', '!', '?', '«', '»', '“', '”', '‘', '’', '‹', '›',
   '—', '–', '−', '-']

/-- Membership in the word-boundary class. -/
def isWordBoundaryChar (c : Char) : Bool :=
  wordBoundaryChars.contains c

/-- Test for `startsWithWordBoundary` of the source: the first character is
in the boundary class (false on the empty string, as for the regex). -/
def startsWithWordBoundary (s : Str) : Bool :=
  match s with
  | [] => false
  | c :: _ => isWordBoundaryChar c

/-- Test for `endsWithWordBoundary` of the source: the last character is in
the boundary class (false on the empty string). -/
def endsWithWordBoundary (s : Str) : Bool :=
  match s.getLast? with
  | none => false
  | some c => isWordBoundaryChar c

/-- The JavaScript regex class `\w`: ASCII letters, digits and underscore. -/
def isWordChar (c : Char) : Bool :=
  ('a' ≤ c && c ≤ 'z') || ('A' ≤ c && c ≤ 'Z') || ('0' ≤ c && c ≤ '9') || c == '_'

/-- The JavaScript regex class `\s` (also the set trimmed by `trimRight`):
tab, line feed, vertical tab, form feed, carriage return, space, no-break
space, ogham space mark, the en-quad..hair-space range, line and paragraph
separator, narrow no-break space, medium mathematical space, ideographic
space and the byte order mark. -/
def isJsWhitespace (c : Char) : Bool :=
  let n := c.toNat
  n == 9 || n == 10 || n == 11 || n == 12 || n == 13 || n == 32 ||
  n == 160 || n == 5760 || (8192 ≤ n && n ≤ 8202) || n == 8232 ||
  n == 8233 || n == 8239 || n == 8287 || n == 12288 || n == 65279

/-- JavaScript `String.prototype.trimRight`: drop trailing whitespace. -/
def trimRight (s : Str) : Str :=
  (s.reverse.dropWhile isJsWhitespace).reverse

/-- The fragments a regular expression of this codebase is built from.
`cls p` matches one character satisfying `p`; `lit t` the literal text `t`
(the source escapes regex metacharacters in triggers, so a trigger is
always matched literally); `plus p` one or more characters satisfying `p`,
greedily; `anchorStart` the start-of-input assertion. -/
inductive RE where
  | empty
  | anchorStart
  | cls (p : Char → Bool)
  | lit (text : Str)
  | plus (p : Char → Bool)
  | seq (a b : RE)
  | alt (a b : RE)

/-- All candidate end positions of a match of `re` starting at position `i`
of `s`, in the preference order of the JavaScript engine: alternatives left
to right, greedy repetition longest first. -/
def matchRE : RE → Str → Nat → List Nat
  | .empty, _, i => [i]
  | .anchorStart, _, i => if i = 0 then [i] else []
  | .cls p, s, i =>
      match s.drop i with
      | [] => []
      | c :: _ => if p c then [i + 1] else []
  | .lit t, s, i => if t.isPrefixOf (s.drop i) then [i + t.length] else []
  | .plus p, s, i =>
      let r := ((s.drop i).takeWhile p).length
      (List.range r).map (fun k => i + r - k)
  | .seq a b, s, i => (matchRE a s i).flatMap (fun m => matchRE b s m)
  | .alt a b, s, i => matchRE a s i ++ matchRE b s i

/-- A replacement item, as built by `regular-expressions.js`: the optional
trigger text (`match` in the source; absent on the smart-quote and
smart-dash items), the regular expression in its `(G1) MIDDLE (G2)` shape,
and the replacement text. -/
structure ReplacementItem where
  matchText : Option Str
  g1 : RE
  mid : RE
  g2 : RE
  replacement : Str

/-- The spans of a successful regex match: the whole match runs from
`index` to `stop`, the first capture group from `index` to `g1End`, the
middle from `g1End` to `g2Start`, the second group from `g2Start` to
`stop`. -/
structure MatchResult where
  index : Nat
  g1End : Nat
  g2Start : Nat
  stop : Nat
deriving DecidableEq

/-- The first (in JavaScript backtracking order) match of an item starting
exactly at position `i`. -/
def tryPattern (item : ReplacementItem) (s : Str) (i : Nat) : Option MatchResult :=
  ((matchRE item.g1 s i).flatMap fun a =>
    (matchRE item.mid s a).flatMap fun m =>
      (matchRE item.g2 s m).map fun e => MatchResult.mk i a m e).head?

/-- JavaScript `String.prototype.match` with a non-global regex: the match
at the leftmost position that has one. -/
def findMatch (item : ReplacementItem) (s : Str) : Option MatchResult :=
  (List.range (s.length + 1)).findSome? (tryPattern item s)

/-- The characters of `s` from position `a` (inclusive) to `b` (exclusive). -/
def sliceStr (s : Str) (a b : Nat) : Str :=
  (s.take b).drop a

/-- JavaScript `String.prototype.substring`: clamps both indices to the
string length and swaps them when given in the wrong order. -/
def jsSubstring (s : Str) (a b : Nat) : Str :=
  sliceStr s (min (min a s.length) (min b s.length)) (max (min a s.length) (min b s.length))

/-- `getSubstitutionRegExp` of `regular-expressions.js`.  The start group
is empty when the trigger itself starts with a boundary character,
otherwise start-of-input or one boundary character; the end group accepts
a word character as well when the trigger itself ends with a boundary
character, otherwise exactly one boundary character.  The trigger is
matched literally (the source escapes it with `escapeRegExp`).  The first
parameter is named `match` in the source, a reserved word here. -/
def getSubstitutionRegExp (matchStr replacement : Str) : ReplacementItem :=
  { matchText := some matchStr
    g1 := if startsWithWordBoundary matchStr then RE.empty
          else RE.alt RE.anchorStart (RE.cls isWordBoundaryChar)
    mid := RE.lit matchStr
    g2 := if endsWithWordBoundary matchStr then
            RE.alt (RE.cls isWordChar) (RE.cls isWordBoundaryChar)
          else RE.cls isWordBoundaryChar
    replacement := replacement }

/-- The curly and dash replacement characters of `regular-expressions.js`. -/
def openingSingleQuote : Str := [Char.ofNat 8216]

/-- The closing curly single quote. -/
def closingSingleQuote : Str := [Char.ofNat 8217]

/-- The opening curly double quote. -/
def openingDoubleQuote : Str := [Char.ofNat 8220]

/-- The closing curly double quote. -/
def closingDoubleQuote : Str := [Char.ofNat 8221]

/-- The em dash. -/
def emDash : Str := [Char.ofNat 8212]

/-- The horizontal ellipsis. -/
def ellipsis : Str := [Char.ofNat 8230]

/-- `getSmartQuotesRegExp` of the source: the five progressive smart-quote
rules, in order: closing double quote after a non-space character; opening
double quote elsewhere; closing single quote before a non-word character;
opening single quote after a non-word character or start; closing single
quote between word characters. -/
def getSmartQuotesRegExp : List ReplacementItem :=
  [ { matchText := none, g1 := RE.cls (fun c => !isJsWhitespace c),
      mid := RE.lit [Char.ofNat 34], g2 := RE.cls (fun _ => true),
      replacement := closingDoubleQuote },
    { matchText := none, g1 := RE.empty,
      mid := RE.lit [Char.ofNat 34], g2 := RE.cls (fun _ => true),
      replacement := openingDoubleQuote },
    { matchText := none, g1 := RE.cls (fun _ => true),
      mid := RE.lit [Char.ofNat 39], g2 := RE.cls (fun c => !isWordChar c),
      replacement := closingSingleQuote },
    { matchText := none, g1 := RE.alt (RE.cls (fun c => !isWordChar c)) RE.anchorStart,
      mid := RE.lit [Char.ofNat 39],
      g2 := RE.cls (fun c => isWordChar c || isJsWhitespace c),
      replacement := openingSingleQuote },
    { matchText := none, g1 := RE.cls isWordChar,
      mid := RE.lit [Char.ofNat 39],
      g2 := RE.seq (RE.plus isWordChar) (RE.cls (fun c => !isWordChar c)),
      replacement := closingSingleQuote } ]

/-- `getSmartDashesRegExp` of the source: triple hyphen to em dash, double
hyphen to em dash, triple period to ellipsis, in that order. -/
def getSmartDashesRegExp : List ReplacementItem :=
  [ { matchText := none, g1 := RE.alt RE.anchorStart (RE.cls (fun c => c != '-')),
      mid := RE.lit ['-', '-', '-'], g2 := RE.cls (fun c => c != '-'),
      replacement := emDash },
    { matchText := none, g1 := RE.alt RE.anchorStart (RE.cls (fun c => c != '-')),
      mid := RE.lit ['-', '-'], g2 := RE.cls (fun c => c != '-'),
      replacement := emDash },
    { matchText := none, g1 := RE.alt RE.anchorStart (RE.cls (fun c => c != '.')),
      mid := RE.lit ['.', '.', '.'], g2 := RE.cls (fun c => c != '.'),
      replacement := ellipsis } ]

/-- One application of JavaScript `String.prototype.replace` with a
non-global regex and the template `$1<replacement>$2`: the first match is
replaced by the first captured group, the replacement, and the second
captured group; without a match the string is unchanged. -/
def replaceFirstMatch (s : Str) (item : ReplacementItem) : Str :=
  match findMatch item s with
  | none => s
  | some r =>
      s.take r.index ++ sliceStr s r.index r.g1End ++ item.replacement ++
        sliceStr s r.g2Start r.stop ++ s.drop r.stop

/-- `scrubInputString` of the source: fold the items over the input, each
replacing its first match. -/
def scrubInputString (input : Str) (items : List ReplacementItem) : Str :=
  items.foldl replaceFirstMatch input

/-- `formatReplacement` of the source: splice the captured left and right
boundary text back around the replacement. -/
def formatReplacement (leftRight : Str × Str) (replacement : Str) : Str :=
  leftRight.1 ++ replacement ++ leftRight.2

/-- A user-dictionary entry (`TextSubstitution` in the source): the text to
replace, the replacement, and the enabled flag, which may be absent.  The
second field is named `with` in the source. -/
structure TextSubstitution where
  replace : Str
  «with» : Str
  «on» : Option Bool
deriving DecidableEq

/-- The text-preference snapshot handed to `getReplacementItems`. -/
structure TextPreferences where
  substitutions : List TextSubstitution
  useSmartQuotes : Bool
  useSmartDashes : Bool

/-- The filter of `getReplacementItems`: `substitution.on !== false &&
substitution.replace !== substitution.with` (an absent flag passes the
first test). -/
def keepSubstitution (s : TextSubstitution) : Bool :=
  decide (s.«on» ≠ some false) && decide (s.replace ≠ s.«with»)

/-- Stable insertion step for the descending sort by trigger length: the
new element goes in front of the first element whose trigger is not
longer. -/
def insertByTriggerLength (x : TextSubstitution) :
    List TextSubstitution → List TextSubstitution
  | [] => [x]
  | y :: ys =>
      if y.replace.length ≤ x.replace.length then x :: y :: ys
      else y :: insertByTriggerLength x ys

/-- The sort of `getReplacementItems`, `(a, b) => b.replace.length -
a.replace.length`: a stable sort by descending trigger length (the
JavaScript array sort is stable, and insertion sort realises the same
unique stable order). -/
def sortSubstitutions : List TextSubstitution → List TextSubstitution
  | [] => []
  | x :: xs => insertByTriggerLength x (sortSubstitutions xs)

/-- The smart-quote and smart-dash items enabled by the preferences, in
that order (`additionalReplacements` in the source). -/
def additionalReplacements (useSmartQuotes useSmartDashes : Bool) : List ReplacementItem :=
  (if useSmartQuotes then getSmartQuotesRegExp else []) ++
    (if useSmartDashes then getSmartDashesRegExp else [])

/-- `getReplacementItems` of `index.js`: filter out disabled and identity
entries, sort by descending trigger length, compile each entry with its
replacement scrubbed through the enabled smart-quote and smart-dash items,
and append those items after the user rules. -/
def getReplacementItems (prefs : TextPreferences) : List ReplacementItem :=
  (sortSubstitutions (prefs.substitutions.filter keepSubstitution)).map
      (fun s => getSubstitutionRegExp s.replace
        (scrubInputString s.«with»
          (additionalReplacements prefs.useSmartQuotes prefs.useSmartDashes)))
    ++ additionalReplacements prefs.useSmartQuotes prefs.useSmartDashes

/-- The text buffer of the host control: value and caret offsets (the
embedding models an `input` element, so `getElementText` reads `value`). -/
structure TextBuffer where
  value : Str
  selectionStart : Nat
  selectionEnd : Nat
deriving DecidableEq

/-- `getElementText` of the source, on the input-element path. -/
def getElementText (buf : TextBuffer) : Str :=
  buf.value

/-- The scanning loop of `lastIndexOfWhitespace`: the running result is the
position just after the most recent whitespace character seen so far. -/
def lastIndexOfWhitespaceAux : Str → Nat → Nat → Nat
  | [], _, acc => acc
  | c :: rest, pos, acc =>
      lastIndexOfWhitespaceAux rest (pos + 1) (if isJsWhitespace c then pos + 1 else acc)

/-- `lastIndexOfWhitespace` of `index.js`: the text before the caret is
first trimmed of trailing whitespace, then the position just after its
last whitespace character is returned (0 when it has none). -/
def lastIndexOfWhitespace (value : Str) (fromIndex : Nat) : Nat :=
  lastIndexOfWhitespaceAux (trimRight (value.take fromIndex)) 0 0

/-- The search window of the input listener: the text from
`lastIndexOfWhitespace` up to the caret end offset. -/
def lastWordBlock (buf : TextBuffer) : Str :=
  jsSubstring (getElementText buf)
    (lastIndexOfWhitespace (getElementText buf) buf.selectionEnd) buf.selectionEnd

/-- `replaceText` of the source: select the range, insert the new text in
its place, and leave the caret right after the inserted text (the
`insertText` editing command semantics). -/
def replaceText (buf : TextBuffer) (startIndex endIndex : Nat) (newText : Str) : TextBuffer :=
  { value := buf.value.take startIndex ++ newText ++ buf.value.drop endIndex
    selectionStart := startIndex + newText.length
    selectionEnd := startIndex + newText.length }

/-- One iteration of the matching loop of `inputListener`, for one
replacement item: `some` of the edited buffer when the item fires, `none`
when it does not match or the deferred-match guard (`some(replacementItems,
item => item.match === match[0])`) skips it.  Every regex of the codebase
has two capture groups, so the `match.length === 3` test of the source
always passes on a successful match. -/
def substitutionStep? (items : List ReplacementItem) (buf : TextBuffer)
    (it : ReplacementItem) : Option TextBuffer :=
  match findMatch it (lastWordBlock buf) with
  | none => none
  | some r =>
      if items.any (fun j =>
          decide (j.matchText = some (sliceStr (lastWordBlock buf) r.index r.stop))) then
        none
      else
        some (replaceText buf
          (lastIndexOfWhitespace (getElementText buf) buf.selectionEnd + r.index)
          (lastIndexOfWhitespace (getElementText buf) buf.selectionEnd + r.index
            + (sliceStr (lastWordBlock buf) r.index r.stop).length)
          (formatReplacement
            (sliceStr (lastWordBlock buf) r.index r.g1End,
             sliceStr (lastWordBlock buf) r.g2Start r.stop) it.replacement))

/-- The full matching loop of `inputListener`: every item is tried in rule
set order against the buffer as left by the previous items (there is no
break after a successful substitution). -/
def runSubstitutions (items : List ReplacementItem) (buf : TextBuffer) : TextBuffer :=
  items.foldl (fun b it => (substitutionStep? items b it).getD b) buf

/-- The matching loop instrumented with a count of the substitutions
(`replaceText` invocations) it performs. -/
def substitutionCount (items : List ReplacementItem) (buf : TextBuffer) : TextBuffer × Nat :=
  items.foldl
    (fun p it =>
      match substitutionStep? items p.1 it with
      | none => p
      | some b => (b, p.2 + 1))
    (buf, 0)

/-- A keyboard event, with the fields `keyboard-utils` reads. -/
structure KeyboardEvent where
  keyCode : Nat
  metaKey : Bool
  ctrlKey : Bool
  shiftKey : Bool
  altKey : Bool

/-- `isUndoRedoEvent` of `keyboard-utils`: platform specific key codes for
undo and redo (`z`, shifted `Z`, and `y` off the mac platform). -/
def isUndoRedoEvent (platformDarwin : Bool) (e : KeyboardEvent) : Bool :=
  if platformDarwin then
    e.metaKey && !e.ctrlKey && !e.altKey && (e.keyCode == 90 || e.keyCode == 122)
  else
    e.ctrlKey && !e.metaKey && !e.shiftKey && !e.altKey && (e.keyCode == 90 || e.keyCode == 89)

/-- `isBackspaceEvent` of `keyboard-utils`: backspace or delete. -/
def isBackspaceEvent (e : KeyboardEvent) : Bool :=
  e.keyCode == 8 || e.keyCode == 46

/-- The per-session state of `addInputListener`: the two mutable flags and
the buffer of the attached element. -/
structure ListenerState where
  ignoreEvent : Bool
  composition : Bool
  buffer : TextBuffer
deriving DecidableEq

/-- The events the listener set of `addInputListener` subscribes to. -/
inductive InputEvent where
  | keydown (e : KeyboardEvent)
  | keyup
  | paste
  | compositionStart
  | compositionEnd
  | input

/-- One iteration of the matching loop at the session level: when the item
fires, the synthesized edit raises a synchronous `input` event, modelled by
applying `h` to the state carrying the edited buffer. -/
def substitutionStepWith (items : List ReplacementItem)
    (h : ListenerState → ListenerState) (st : ListenerState)
    (it : ReplacementItem) : ListenerState :=
  match substitutionStep? items st.buffer it with
  | none => st
  | some b => h { st with buffer := b }

/-- The matching loop at the session level, with `h` the handler the
synthesized edits re-enter. -/
def runLoopWith (items : List ReplacementItem)
    (h : ListenerState → ListenerState) (st : ListenerState) : ListenerState :=
  items.foldl (substitutionStepWith items h) st

/-- `inputListener` of `index.js`: return unchanged while composing or
while `ignoreEvent` is set; otherwise set `ignoreEvent`, run the matching
loop, and clear it. -/
def inputListener (items : List ReplacementItem) (st : ListenerState) : ListenerState :=
  if st.composition then st
  else if st.ignoreEvent then st
  else
    { runLoopWith items (fun s => s) { st with ignoreEvent := true } with
        ignoreEvent := false }

/-- The event dispatch of `addInputListener`: keydown sets `ignoreEvent` on
undo, redo, backspace or during composition; keyup clears it outside
composition; paste sets it; composition start and end toggle `composition`,
and composition end additionally clears `ignoreEvent` and forces one run of
the input listener. -/
def handleEvent (platformDarwin : Bool) (items : List ReplacementItem)
    (st : ListenerState) : InputEvent → ListenerState
  | .keydown e =>
      if isUndoRedoEvent platformDarwin e || isBackspaceEvent e || st.composition then
        { st with ignoreEvent := true }
      else st
  | .keyup => if !st.composition then { st with ignoreEvent := false } else st
  | .paste => { st with ignoreEvent := true }
  | .compositionStart => { st with composition := true }
  | .compositionEnd =>
      inputListener items { st with composition := false, ignoreEvent := false }
  | .input => inputListener items st

/-- The replacement text of a user entry in the repository test suite: a
double hyphen and a straight-quoted name. -/
def miloReplacement : Str :=
  ("Hello-- my name is ").toList ++ [Char.ofNat 39] ++ ("Milo,").toList ++
    [Char.ofNat 39] ++ (" how do you do?").toList

/-- The same replacement after the smart-quote and smart-dash scrub: em
dash and curly quotes. -/
def miloScrubbed : Str :=
  ("Hello").toList ++ emDash ++ (" my name is ").toList ++ openingSingleQuote ++
    ("Milo,").toList ++ closingSingleQuote ++ (" how do you do?").toList

/-- The window start as the claim words it: the position just after the
most recent whitespace character before the caret end offset, or the start
of the buffer when there is none (no trimming of the whitespace directly
before the caret). -/
def specWindowStart (value : Str) (caret : Nat) : Nat :=
  lastIndexOfWhitespaceAux (value.take caret) 0 0

/-! ## General lemmas about the matching engine -/

/-- Every candidate end position lies between the start position and the
end of the string. -/
theorem mem_matchRE_le : ∀ (re : RE) (s : Str) (i m : Nat),
    i ≤ s.length → m ∈ matchRE re s i → i ≤ m ∧ m ≤ s.length := by
  intro re s
  induction re with
  | empty =>
      intro i m hi hm
      simp only [matchRE, List.mem_singleton] at hm
      omega
  | anchorStart =>
      intro i m hi hm
      by_cases h : i = 0 <;> simp only [matchRE, h, if_true, if_false,
        List.mem_singleton, reduceIte] at hm
      · omega
      · cases hm
  | cls p =>
      intro i m hi hm
      cases hd : s.drop i with
      | nil => simp [matchRE, hd] at hm
      | cons c rest =>
          have hlen : (s.drop i).length = s.length - i := List.length_drop i s
          rw [hd] at hlen
          simp only [matchRE, hd] at hm
          by_cases hp : p c
          · simp only [hp, if_true, List.mem_singleton] at hm
            simp only [List.length_cons] at hlen
            omega
          · simp [hp] at hm
  | lit t =>
      intro i m hi hm
      unfold matchRE at hm
      by_cases h : t.isPrefixOf (s.drop i)
      · simp only [h, if_true, List.mem_singleton] at hm
        have hp := (List.isPrefixOf_iff_prefix.mp h).length_le
        rw [List.length_drop] at hp
        omega
      · simp [h] at hm
  | plus p =>
      intro i m hi hm
      simp only [matchRE, List.mem_map, List.mem_range] at hm
      obtain ⟨k, hk, rfl⟩ := hm
      have hr : ((s.drop i).takeWhile p).length ≤ s.length - i := by
        have := (List.takeWhile_sublist (l := s.drop i) p).length_le
        rw [List.length_drop] at this
        exact this
      omega
  | seq a b iha ihb =>
      intro i m hi hm
      simp only [matchRE, List.mem_flatMap] at hm
      obtain ⟨m1, h1, h2⟩ := hm
      have b1 := iha i m1 hi h1
      have b2 := ihb m1 m b1.2 h2
      omega
  | alt a b iha ihb =>
      intro i m hi hm
      simp only [matchRE, List.mem_append] at hm
      rcases hm with h | h
      · exact iha i m hi h
      · exact ihb i m hi h

/-- A starting position admits a match exactly when the three parts can be
chained. -/
theorem tryPattern_isSome_iff (item : ReplacementItem) (s : Str) (i : Nat) :
    (tryPattern item s i).isSome = true ↔
      ∃ a m e, a ∈ matchRE item.g1 s i ∧ m ∈ matchRE item.mid s a ∧
        e ∈ matchRE item.g2 s m := by
  unfold tryPattern
  rw [List.head?_isSome]
  constructor
  · intro h
    obtain ⟨x, hx⟩ := List.exists_mem_of_ne_nil _ h
    simp only [List.mem_flatMap, List.mem_map] at hx
    obtain ⟨a, ha, m, hm, e, he, rfl⟩ := hx
    exact ⟨a, m, e, ha, hm, he⟩
  · rintro ⟨a, m, e, ha, hm, he⟩ hnil
    have hx : MatchResult.mk i a m e ∈
        (matchRE item.g1 s i).flatMap fun a =>
          (matchRE item.mid s a).flatMap fun m =>
            (matchRE item.g2 s m).map fun e => MatchResult.mk i a m e := by
      simp only [List.mem_flatMap, List.mem_map]
      exact ⟨a, ha, m, hm, e, he, rfl⟩
    rw [hnil] at hx
    cases hx

/-- The leftmost-position search succeeds exactly when some position within
the string admits a match. -/
theorem findMatch_isSome_iff (item : ReplacementItem) (s : Str) :
    (findMatch item s).isSome = true ↔
      ∃ i, i ≤ s.length ∧ (tryPattern item s i).isSome = true := by
  unfold findMatch
  constructor
  · intro h
    cases hf : (List.range (s.length + 1)).findSome? (tryPattern item s) with
    | none => rw [hf] at h; cases h
    | some r =>
        rw [List.findSome?_eq_some_iff] at hf
        obtain ⟨l₁, a, l₂, hsplit, htry, _⟩ := hf
        have ha : a ∈ List.range (s.length + 1) := by
          rw [hsplit]
          simp
        rw [List.mem_range] at ha
        refine ⟨a, by omega, ?_⟩
        rw [htry]
        rfl
  · rintro ⟨i, hi, hsome⟩
    cases hf : (List.range (s.length + 1)).findSome? (tryPattern item s) with
    | some r => rfl
    | none =>
        rw [List.findSome?_eq_none_iff] at hf
        have := hf i (by rw [List.mem_range]; omega)
        rw [this] at hsome
        cases hsome

/-- No match anywhere: every position within the string fails. -/
theorem findMatch_eq_none_iff (item : ReplacementItem) (s : Str) :
    findMatch item s = none ↔ ∀ i, i ≤ s.length → tryPattern item s i = none := by
  unfold findMatch
  rw [List.findSome?_eq_none_iff]
  constructor
  · intro h i hi
    exact h i (by rw [List.mem_range]; omega)
  · intro h i hi
    rw [List.mem_range] at hi
    exact h i (by omega)

/-- The spans of a successful search are ordered and bounded by the string
length. -/
theorem findMatch_bounds (item : ReplacementItem) (s : Str) (r : MatchResult)
    (h : findMatch item s = some r) :
    r.index ≤ r.g1End ∧ r.g1End ≤ r.g2Start ∧ r.g2Start ≤ r.stop ∧
      r.stop ≤ s.length := by
  unfold findMatch at h
  rw [List.findSome?_eq_some_iff] at h
  obtain ⟨l₁, i, l₂, hsplit, htry, _⟩ := h
  have hi : i ∈ List.range (s.length + 1) := by rw [hsplit]; simp
  rw [List.mem_range] at hi
  unfold tryPattern at htry
  have hmem := List.mem_of_mem_head? (Option.mem_def.mpr htry)
  simp only [List.mem_flatMap, List.mem_map] at hmem
  obtain ⟨a, ha, m, hm, e, he, heq⟩ := hmem
  have b1 := mem_matchRE_le item.g1 s i a (by omega) ha
  have b2 := mem_matchRE_le item.mid s a m b1.2 hm
  have b3 := mem_matchRE_le item.g2 s m e b2.2 he
  subst heq
  exact ⟨b1.1, b2.1, b3.1, b3.2⟩

/-- Length of a slice. -/
theorem sliceStr_length (s : Str) (a b : Nat) :
    (sliceStr s a b).length = min b s.length - a := by
  simp [sliceStr]

/-! ## Lemmas about the rule set builder -/

/-- Inserting is a permutation with consing. -/
theorem insertByTriggerLength_perm (x : TextSubstitution) (l : List TextSubstitution) :
    (insertByTriggerLength x l).Perm (x :: l) := by
  induction l with
  | nil => exact List.Perm.refl _
  | cons y ys ih =>
      unfold insertByTriggerLength
      split
      · exact List.Perm.refl _
      · exact (ih.cons y).trans (List.Perm.swap x y ys)

/-- The sort is a permutation of its input. -/
theorem sortSubstitutions_perm (l : List TextSubstitution) :
    (sortSubstitutions l).Perm l := by
  induction l with
  | nil => exact List.Perm.refl _
  | cons x xs ih =>
      exact (insertByTriggerLength_perm x (sortSubstitutions xs)).trans (ih.cons x)

/-- Inserting keeps the list sorted by descending trigger length. -/
theorem insertByTriggerLength_sorted (x : TextSubstitution) (l : List TextSubstitution)
    (h : List.Sorted (fun a b => b.replace.length ≤ a.replace.length) l) :
    List.Sorted (fun a b => b.replace.length ≤ a.replace.length)
      (insertByTriggerLength x l) := by
  induction l with
  | nil => simp [insertByTriggerLength]
  | cons y ys ih =>
      unfold insertByTriggerLength
      rw [List.sorted_cons] at h
      split
      · rename_i hle
        rw [List.sorted_cons]
        refine ⟨?_, List.sorted_cons.mpr h⟩
        intro b hb
        rcases List.mem_cons.mp hb with rfl | hb
        · exact hle
        · exact le_trans (h.1 b hb) hle
      · rename_i hgt
        rw [List.sorted_cons]
        refine ⟨?_, ih h.2⟩
        intro b hb
        rcases List.mem_cons.mp
            ((insertByTriggerLength_perm x ys).mem_iff.mp hb) with rfl | hb
        · omega
        · exact h.1 b hb

/-- The sort output is sorted by descending trigger length. -/
theorem sortSubstitutions_sorted (l : List TextSubstitution) :
    List.Sorted (fun a b => b.replace.length ≤ a.replace.length)
      (sortSubstitutions l) := by
  induction l with
  | nil => simp [sortSubstitutions]
  | cons x xs ih => exact insertByTriggerLength_sorted x (sortSubstitutions xs) ih

/-- Filtering the elements of one trigger length through an insertion:
shorter-or-equal elements stay behind the inserted one, strictly longer
ones stay ahead of it, so the length-n elements keep their order. -/
theorem filter_insertByTriggerLength (x : TextSubstitution)
    (l : List TextSubstitution) (n : Nat)
    (h : List.Sorted (fun a b => b.replace.length ≤ a.replace.length) l) :
    (insertByTriggerLength x l).filter (fun s => decide (s.replace.length = n))
      = if x.replace.length = n then
          x :: l.filter (fun s => decide (s.replace.length = n))
        else l.filter (fun s => decide (s.replace.length = n)) := by
  induction l with
  | nil =>
      simp only [insertByTriggerLength, List.filter]
      by_cases hx : x.replace.length = n <;> simp [hx]
  | cons y ys ih =>
      rw [List.sorted_cons] at h
      unfold insertByTriggerLength
      split
      · rename_i hle
        by_cases hx : x.replace.length = n <;> simp [List.filter_cons, hx]
      · rename_i hgt
        by_cases hx : x.replace.length = n
        · have hy : ¬ (y.replace.length = n) := by omega
          simp [List.filter_cons, hx, hy, ih h.2]
        · by_cases hy : y.replace.length = n <;>
            simp [List.filter_cons, hx, hy, ih h.2]

/-- Stability of the sort: the elements of any one trigger length appear in
their original order. -/
theorem sortSubstitutions_stable (l : List TextSubstitution) (n : Nat) :
    (sortSubstitutions l).filter (fun s => decide (s.replace.length = n))
      = l.filter (fun s => decide (s.replace.length = n)) := by
  induction l with
  | nil => rfl
  | cons x xs ih =>
      rw [sortSubstitutions,
        filter_insertByTriggerLength x (sortSubstitutions xs) n
          (sortSubstitutions_sorted xs),
        ih, List.filter_cons]
      by_cases hx : x.replace.length = n <;> simp [hx]

/-! ## Claims about the rule set builder -/

/-- Claim C6: for every input list of entries and flags, the built rule set
is exactly the enabled entries with trigger different from replacement,
sorted by descending trigger length with ties in original order, followed
by the smart-quote matchers (if enabled) and then the smart-dash matchers
(if enabled). -/
theorem c6_rule_set_order_and_content (prefs : TextPreferences) :
    getReplacementItems prefs =
        (sortSubstitutions (prefs.substitutions.filter keepSubstitution)).map
          (fun s => getSubstitutionRegExp s.replace
            (scrubInputString s.«with»
              (additionalReplacements prefs.useSmartQuotes prefs.useSmartDashes)))
        ++ (if prefs.useSmartQuotes then getSmartQuotesRegExp else [])
        ++ (if prefs.useSmartDashes then getSmartDashesRegExp else [])
      ∧ (sortSubstitutions (prefs.substitutions.filter keepSubstitution)).Perm
          (prefs.substitutions.filter keepSubstitution)
      ∧ List.Sorted (fun a b => b.replace.length ≤ a.replace.length)
          (sortSubstitutions (prefs.substitutions.filter keepSubstitution))
      ∧ (∀ n : Nat,
          (sortSubstitutions (prefs.substitutions.filter keepSubstitution)).filter
              (fun s => decide (s.replace.length = n))
            = (prefs.substitutions.filter keepSubstitution).filter
              (fun s => decide (s.replace.length = n)))
      ∧ (∀ s : TextSubstitution,
          keepSubstitution s = true ↔ (s.«on» ≠ some false ∧ s.replace ≠ s.«with»)) := by
  refine ⟨?_, sortSubstitutions_perm _, sortSubstitutions_sorted _,
    fun n => sortSubstitutions_stable _ n, fun s => ?_⟩
  · simp [getReplacementItems, additionalReplacements]
  · simp [keepSubstitution]

/-- Claim C7: every compiled user-dictionary matcher carries a replacement
text that went once through the enabled smart-quote and smart-dash items
before compilation; on the concrete test replacement this yields the curly
and dash form directly. -/
theorem c7_replacement_prescrubbed (prefs : TextPreferences) (item : ReplacementItem) :
    (item ∈ (sortSubstitutions (prefs.substitutions.filter keepSubstitution)).map
          (fun s => getSubstitutionRegExp s.replace
            (scrubInputString s.«with»
              (additionalReplacements prefs.useSmartQuotes prefs.useSmartDashes)))
        ↔ ∃ s ∈ prefs.substitutions.filter keepSubstitution,
            item = getSubstitutionRegExp s.replace
              (scrubInputString s.«with»
                (additionalReplacements prefs.useSmartQuotes prefs.useSmartDashes)))
      ∧ getReplacementItems prefs =
          (sortSubstitutions (prefs.substitutions.filter keepSubstitution)).map
            (fun s => getSubstitutionRegExp s.replace
              (scrubInputString s.«with»
                (additionalReplacements prefs.useSmartQuotes prefs.useSmartDashes)))
          ++ additionalReplacements prefs.useSmartQuotes prefs.useSmartDashes
      ∧ scrubInputString miloReplacement (additionalReplacements true true)
          = miloScrubbed := by
  refine ⟨?_, rfl, by decide⟩
  constructor
  · intro h
    rw [List.mem_map] at h
    obtain ⟨s, hs, rfl⟩ := h
    exact ⟨s, (sortSubstitutions_perm _).mem_iff.mp hs, rfl⟩
  · rintro ⟨s, hs, rfl⟩
    rw [List.mem_map]
    exact ⟨s, (sortSubstitutions_perm _).mem_iff.mpr hs, rfl⟩

/-- Claim C10: an entry whose enabled flag is absent is treated as enabled:
it passes the filter and is compiled into the rule set. -/
theorem c10_absent_flag_enabled (prefs : TextPreferences) (e : TextSubstitution)
    (hmem : e ∈ prefs.substitutions) (hon : e.«on» ≠ some false)
    (hne : e.replace ≠ e.«with») :
    getSubstitutionRegExp e.replace
        (scrubInputString e.«with»
          (additionalReplacements prefs.useSmartQuotes prefs.useSmartDashes))
      ∈ getReplacementItems prefs := by
  unfold getReplacementItems
  apply List.mem_append_left
  rw [List.mem_map]
  refine ⟨e, ?_, rfl⟩
  rw [(sortSubstitutions_perm _).mem_iff, List.mem_filter]
  exact ⟨hmem, by simp [keepSubstitution, hon, hne]⟩

/-- Witness for claim C10 at a concrete entry with an absent flag. -/
theorem c10_absent_flag_enabled_witness :
    getSubstitutionRegExp (("ab").toList)
        (scrubInputString (("c").toList) (additionalReplacements false false))
      ∈ getReplacementItems ⟨[⟨("ab").toList, ("c").toList, none⟩], false, false⟩ :=
  c10_absent_flag_enabled ⟨[⟨("ab").toList, ("c").toList, none⟩], false, false⟩
    ⟨("ab").toList, ("c").toList, none⟩ (by decide) (by decide) (by decide)

/-- Claim C3, counterexample: a rule with an empty trigger is not dropped
from the built rule set — the compiled set for the single entry with empty
trigger contains an item whose trigger text is the empty string. -/
theorem c3_counterexample_empty_trigger_compiled :
    (getReplacementItems ⟨[⟨[], ("x").toList, none⟩], false, false⟩).map
        (fun item => item.matchText) = [some []] := by
  decide

/-- Claim C3 as amended: compiling never rejects a rule — there is no
empty-trigger error; every enabled entry whose trigger differs from its
replacement, the empty-trigger ones included, is compiled into the set. -/
theorem c3_no_empty_trigger_rejection (prefs : TextPreferences) (e : TextSubstitution)
    (hmem : e ∈ prefs.substitutions) (hkeep : keepSubstitution e = true) :
    ∃ item ∈ getReplacementItems prefs, item.matchText = some e.replace := by
  refine ⟨getSubstitutionRegExp e.replace
    (scrubInputString e.«with»
      (additionalReplacements prefs.useSmartQuotes prefs.useSmartDashes)), ?_, rfl⟩
  unfold getReplacementItems
  apply List.mem_append_left
  rw [List.mem_map]
  refine ⟨e, ?_, rfl⟩
  rw [(sortSubstitutions_perm _).mem_iff, List.mem_filter]
  exact ⟨hmem, hkeep⟩

/-- Witness for claim C3 as amended, at the empty-trigger entry. -/
theorem c3_no_empty_trigger_rejection_witness :
    ∃ item ∈ getReplacementItems ⟨[⟨[], ("x").toList, none⟩], false, false⟩,
      item.matchText = some [] :=
  c3_no_empty_trigger_rejection ⟨[⟨[], ("x").toList, none⟩], false, false⟩
    ⟨[], ("x").toList, none⟩ (by decide) (by decide)

/-! ## Lemmas about the input listener loop -/

/-- While `ignoreEvent` is set, a re-entrant input listener invoked by each
synthesized edit is the identity, so the loop runs as if no nested event
fired. -/
theorem foldl_stepWith_ignore (g items2 : List ReplacementItem) :
    ∀ (l : List ReplacementItem) (st : ListenerState), st.ignoreEvent = true →
      List.foldl (substitutionStepWith g (inputListener items2)) st l
        = List.foldl (substitutionStepWith g (fun s => s)) st l := by
  intro l
  induction l with
  | nil => intro st h; rfl
  | cons it rest ih =>
      intro st h
      simp only [List.foldl_cons]
      have hstep : substitutionStepWith g (inputListener items2) st it
            = substitutionStepWith g (fun s => s) st it
          ∧ (substitutionStepWith g (fun s => s) st it).ignoreEvent = true := by
        unfold substitutionStepWith
        cases hs : substitutionStep? g st.buffer it with
        | none => exact ⟨rfl, h⟩
        | some b =>
            refine ⟨?_, h⟩
            show inputListener items2 { st with buffer := b } = { st with buffer := b }
            simp [inputListener, h]
      rw [hstep.1, ih _ hstep.2]

/-- The instrumented loop computes the same final buffer as the plain loop,
and performs at most one substitution per item. -/
theorem substitutionCount_spec (items : List ReplacementItem) :
    ∀ (l : List ReplacementItem) (buf : TextBuffer) (n : Nat),
      (List.foldl
          (fun (p : TextBuffer × Nat) it =>
            match substitutionStep? items p.1 it with
            | none => p
            | some b => (b, p.2 + 1)) (buf, n) l).1
        = List.foldl (fun b it => (substitutionStep? items b it).getD b) buf l
      ∧ (List.foldl
          (fun (p : TextBuffer × Nat) it =>
            match substitutionStep? items p.1 it with
            | none => p
            | some b => (b, p.2 + 1)) (buf, n) l).2 ≤ n + l.length := by
  intro l
  induction l with
  | nil => intro buf n; exact ⟨rfl, Nat.le_add_right n 0⟩
  | cons it rest ih =>
      intro buf n
      simp only [List.foldl_cons, List.length_cons]
      cases hs : substitutionStep? items buf it with
      | none =>
          simp only [hs, Option.getD_none]
          refine ⟨(ih buf n).1, ?_⟩
          have := (ih buf n).2
          omega
      | some b =>
          simp only [hs, Option.getD_some]
          refine ⟨(ih b (n + 1)).1, ?_⟩
          have := (ih b (n + 1)).2
          omega

/-! ## Claims about the applier loop and the session controller -/

/-- Claim C9: while composing or suppressed, an input event leaves the
state (its buffer included) unchanged; undo, redo, backspace and paste set
the suppression flag; the listener sets the flag before its edits and
clears it after, so a synthesized edit re-entering the listener is a
no-op and the loop result is as if no nested event fired. -/
theorem c9_suppression_and_reentrancy (platformDarwin : Bool)
    (items : List ReplacementItem) (st : ListenerState) :
    ((st.composition = true ∨ st.ignoreEvent = true) →
        handleEvent platformDarwin items st InputEvent.input = st)
      ∧ (∀ e : KeyboardEvent,
          isUndoRedoEvent platformDarwin e = true ∨ isBackspaceEvent e = true →
          (handleEvent platformDarwin items st (InputEvent.keydown e)).ignoreEvent = true)
      ∧ (handleEvent platformDarwin items st InputEvent.paste).ignoreEvent = true
      ∧ (st.ignoreEvent = true →
          runLoopWith items (inputListener items) st
            = runLoopWith items (fun s => s) st)
      ∧ (st.composition = false → st.ignoreEvent = false →
          inputListener items st
            = { runLoopWith items (fun s => s) { st with ignoreEvent := true } with
                  ignoreEvent := false }) := by
  refine ⟨?_, ?_, ?_, ?_, ?_⟩
  · intro h
    rcases h with h | h <;> simp [handleEvent, inputListener, h]
  · intro e he
    rcases he with h | h <;> simp [handleEvent, h]
  · simp [handleEvent]
  · intro h
    exact foldl_stepWith_ignore items items items st h
  · intro h1 h2
    simp [inputListener, h1, h2, runLoopWith]

/-- Claim C1 as amended: the matchers are tested in rule set order against
the buffer as left by the previous matchers; each matcher performs at most
one substitution per event, so an event performs at most one substitution
per matcher; and when no matcher matches the window the buffer is left
untouched. -/
theorem c1_loop_order_and_per_item_bound (items : List ReplacementItem) (buf : TextBuffer) :
    runSubstitutions items buf
        = items.foldl (fun b it => (substitutionStep? items b it).getD b) buf
      ∧ (substitutionCount items buf).1 = runSubstitutions items buf
      ∧ (substitutionCount items buf).2 ≤ items.length
      ∧ ((∀ it ∈ items, findMatch it (lastWordBlock buf) = none) →
          runSubstitutions items buf = buf) := by
  refine ⟨rfl, (substitutionCount_spec items items buf 0).1, ?_, ?_⟩
  · have := (substitutionCount_spec items items buf 0).2
    simpa using this
  · intro hnone
    unfold runSubstitutions
    have : ∀ l : List ReplacementItem, (∀ it ∈ l, findMatch it (lastWordBlock buf) = none) →
        List.foldl (fun b it => (substitutionStep? items b it).getD b) buf l = buf := by
      intro l
      induction l with
      | nil => intro _; rfl
      | cons it rest ih =>
          intro hl
          simp only [List.foldl_cons]
          have hstep : substitutionStep? items buf it = none := by
            unfold substitutionStep?
            rw [hl it (List.mem_cons_self it rest)]
          rw [hstep]
          exact ih (fun j hj => hl j (List.mem_cons_of_mem it hj))
    exact this items hnone

/-- Claim C1, counterexample: one input event performs two substitutions.
With the rules `foo -> bar!` and `bar -> Z` and the buffer `foo ` with the
caret at its end, the first rule rewrites the window to `bar! `, and the
second rule then matches the rewritten window, for a second substitution
in the same event. -/
theorem c1_counterexample_two_substitutions_in_one_event :
    (substitutionCount
        (getReplacementItems ⟨[⟨("foo").toList, ("bar!").toList, none⟩,
          ⟨("bar").toList, ("Z").toList, none⟩], false, false⟩)
        ⟨("foo ").toList, 4, 4⟩).2 = 2
      ∧ (substitutionCount
          (getReplacementItems ⟨[⟨("foo").toList, ("bar!").toList, none⟩,
            ⟨("bar").toList, ("Z").toList, none⟩], false, false⟩)
          ⟨("foo ").toList, 4, 4⟩).1.value = ("Z! ").toList := by
  decide

/-- Claim C2 as amended: a match is skipped exactly when the full matched
text (captured left boundary, trigger and captured right character) equals
the trigger of some item of the set; in the concrete deferral case, the
buffer `Big(tm)s` with triggers `(tm)s` and `(tm)` is left unchanged, and
after the next keystroke completes the longer trigger the substitution
fires. -/
theorem c2_guard_is_exact_equality (items : List ReplacementItem) (buf : TextBuffer)
    (it : ReplacementItem) :
    (substitutionStep? items buf it = none ↔
        findMatch it (lastWordBlock buf) = none ∨
          ∃ r, findMatch it (lastWordBlock buf) = some r ∧
            items.any (fun j =>
              decide (j.matchText
                = some (sliceStr (lastWordBlock buf) r.index r.stop))) = true)
      ∧ runSubstitutions
            (getReplacementItems ⟨[⟨("(tm)s").toList, ("X").toList, none⟩,
              ⟨("(tm)").toList, ("™").toList, none⟩], false, false⟩)
            ⟨("Big(tm)s").toList, 8, 8⟩
          = ⟨("Big(tm)s").toList, 8, 8⟩
      ∧ (runSubstitutions
            (getReplacementItems ⟨[⟨("(tm)s").toList, ("X").toList, none⟩,
              ⟨("(tm)").toList, ("™").toList, none⟩], false, false⟩)
            ⟨("Big(tm)s ").toList, 9, 9⟩).value
          = ("BigX ").toList := by
  refine ⟨?_, by decide, by decide⟩
  constructor
  · intro h
    cases hf : findMatch it (lastWordBlock buf) with
    | none => exact Or.inl rfl
    | some r =>
        refine Or.inr ⟨r, rfl, ?_⟩
        by_contra hany
        rw [Bool.not_eq_true] at hany
        unfold substitutionStep? at h
        rw [hf] at h
        dsimp only at h
        rw [hany] at h
        simp at h
  · intro h
    unfold substitutionStep?
    rcases h with h | ⟨r, hr, hany⟩
    · rw [h]
    · rw [hr]
      dsimp only
      rw [hany]
      simp

/-- Claim C2, counterexample: with the triggers `(tm)st` and `(tm)` and the
buffer `Big(tm)s`, the matched trigger `(tm)` is a strict prefix of the
longer pending trigger `(tm)st`, yet the match is not skipped: the edit is
performed and the buffer becomes `Big™s`. -/
theorem c2_counterexample_prefix_not_skipped :
    (runSubstitutions
        (getReplacementItems ⟨[⟨("(tm)st").toList, ("X").toList, none⟩,
          ⟨("(tm)").toList, ("™").toList, none⟩], false, false⟩)
        ⟨("Big(tm)s").toList, 8, 8⟩).value = ("Big™s").toList
      ∧ ("(tm)").toList <+: ("(tm)st").toList
      ∧ ("(tm)").toList ≠ ("(tm)st").toList := by
  refine ⟨by decide, ⟨("st").toList, by decide⟩, by decide⟩

/-- The window start computed by the scanning loop never exceeds the
scanned length. -/
theorem lastIndexOfWhitespaceAux_le : ∀ (cs : Str) (pos acc : Nat),
    acc ≤ pos → lastIndexOfWhitespaceAux cs pos acc ≤ pos + cs.length := by
  intro cs
  induction cs with
  | nil => intro pos acc h; simpa using h
  | cons c rest ih =>
      intro pos acc h
      simp only [lastIndexOfWhitespaceAux, List.length_cons]
      have := ih (pos + 1) (if isJsWhitespace c then pos + 1 else acc)
        (by split <;> omega)
      omega

/-- The trimmed text is no longer than the text. -/
theorem trimRight_length_le (s : Str) : (trimRight s).length ≤ s.length := by
  unfold trimRight
  rw [List.length_reverse]
  have := (List.dropWhile_sublist (l := s.reverse) (p := isJsWhitespace)).length_le
  rw [List.length_reverse] at this
  exact this

/-- The window start never exceeds the caret offset. -/
theorem lastIndexOfWhitespace_le (value : Str) (n : Nat) :
    lastIndexOfWhitespace value n ≤ n := by
  unfold lastIndexOfWhitespace
  have h1 := lastIndexOfWhitespaceAux_le (trimRight (value.take n)) 0 0 (Nat.le_refl 0)
  have h2 := trimRight_length_le (value.take n)
  have h3 : (value.take n).length ≤ n := by
    rw [List.length_take]
    omega
  omega

/-- In the in-range, ordered case the JavaScript substring is the plain
slice. -/
theorem jsSubstring_eq_sliceStr (s : Str) (a b : Nat) (hab : a ≤ b)
    (hb : b ≤ s.length) : jsSubstring s a b = sliceStr s a b := by
  unfold jsSubstring
  rw [min_eq_left (le_trans hab hb), min_eq_left hb, min_eq_left hab,
    max_eq_right hab]

/-- A longer prefix splits as a shorter prefix and a slice. -/
theorem take_eq_take_append_sliceStr (l : Str) (a b : Nat) (h : a ≤ b) :
    l.take b = l.take a ++ sliceStr l a b := by
  conv_lhs => rw [← List.take_append_drop a (l.take b)]
  rw [List.take_take, inf_eq_left.mpr h]
  rfl

/-- A suffix splits as a slice and a shorter suffix. -/
theorem drop_eq_sliceStr_append_drop (l : Str) (a b : Nat) (hab : a ≤ b)
    (hb : b ≤ l.length) : l.drop a = sliceStr l a b ++ l.drop b := by
  conv_lhs => rw [← List.take_append_drop b l]
  rw [List.drop_append_eq_append_drop, List.length_take]
  have h0 : a - min b l.length = 0 := by omega
  rw [h0, List.drop_zero]
  rfl

/-- Claim C8 as amended: the search window runs from the position returned
by `lastIndexOfWhitespace` (the position just after the most recent
whitespace in the text before the caret once its trailing whitespace is
trimmed) up to the caret; and whatever one matcher iteration does, the
buffer text before that window start and at or after the caret offset is
preserved, the edit being confined to the window. -/
theorem c8_edit_confined_to_window (items : List ReplacementItem) (buf : TextBuffer)
    (it : ReplacementItem) (hsel : buf.selectionEnd ≤ buf.value.length) :
    lastWordBlock buf
        = sliceStr buf.value (lastIndexOfWhitespace buf.value buf.selectionEnd)
            buf.selectionEnd
      ∧ ∃ mid, ((substitutionStep? items buf it).getD buf).value
          = buf.value.take (lastIndexOfWhitespace buf.value buf.selectionEnd) ++ mid
            ++ buf.value.drop buf.selectionEnd := by
  have hssi : lastIndexOfWhitespace buf.value buf.selectionEnd ≤ buf.selectionEnd :=
    lastIndexOfWhitespace_le buf.value buf.selectionEnd
  have hw : lastWordBlock buf
      = sliceStr buf.value (lastIndexOfWhitespace buf.value buf.selectionEnd)
          buf.selectionEnd := by
    unfold lastWordBlock getElementText
    exact jsSubstring_eq_sliceStr buf.value _ _ hssi hsel
  refine ⟨hw, ?_⟩
  have hunchanged : buf.value
      = buf.value.take (lastIndexOfWhitespace buf.value buf.selectionEnd)
        ++ sliceStr buf.value (lastIndexOfWhitespace buf.value buf.selectionEnd)
            buf.selectionEnd
        ++ buf.value.drop buf.selectionEnd := by
    conv_lhs => rw [← List.take_append_drop buf.selectionEnd buf.value]
    rw [take_eq_take_append_sliceStr buf.value _ _ hssi, List.append_assoc]
  cases hf : findMatch it (lastWordBlock buf) with
  | none =>
      have hstep : substitutionStep? items buf it = none := by
        unfold substitutionStep?
        rw [hf]
      rw [hstep]
      exact ⟨_, hunchanged⟩
  | some r =>
      have hb := findMatch_bounds it (lastWordBlock buf) r hf
      have hwlen : (lastWordBlock buf).length
          = buf.selectionEnd - lastIndexOfWhitespace buf.value buf.selectionEnd := by
        rw [hw, sliceStr_length]
        omega
      cases hany : items.any (fun j =>
          decide (j.matchText = some (sliceStr (lastWordBlock buf) r.index r.stop))) with
      | false =>
          have hstep : substitutionStep? items buf it
              = some (replaceText buf
                  (lastIndexOfWhitespace (getElementText buf) buf.selectionEnd + r.index)
                  (lastIndexOfWhitespace (getElementText buf) buf.selectionEnd + r.index
                    + (sliceStr (lastWordBlock buf) r.index r.stop).length)
                  (formatReplacement
                    (sliceStr (lastWordBlock buf) r.index r.g1End,
                     sliceStr (lastWordBlock buf) r.g2Start r.stop) it.replacement)) := by
            unfold substitutionStep?
            rw [hf]
            dsimp only
            rw [hany]
            simp
          rw [hstep]
          simp only [Option.getD_some]
          unfold replaceText getElementText
          have hm0len : (sliceStr (lastWordBlock buf) r.index r.stop).length
              = r.stop - r.index := by
            rw [sliceStr_length]
            omega
          rw [hm0len]
          have hS : lastIndexOfWhitespace buf.value buf.selectionEnd ≤
              lastIndexOfWhitespace buf.value buf.selectionEnd + r.index :=
            Nat.le_add_right _ _
          have hE : lastIndexOfWhitespace buf.value buf.selectionEnd + r.index
              + (r.stop - r.index) ≤ buf.selectionEnd := by
            omega
          refine ⟨sliceStr buf.value (lastIndexOfWhitespace buf.value buf.selectionEnd)
              (lastIndexOfWhitespace buf.value buf.selectionEnd + r.index)
            ++ formatReplacement
                (sliceStr (lastWordBlock buf) r.index r.g1End,
                 sliceStr (lastWordBlock buf) r.g2Start r.stop) it.replacement
            ++ sliceStr buf.value
                (lastIndexOfWhitespace buf.value buf.selectionEnd + r.index
                  + (r.stop - r.index)) buf.selectionEnd, ?_⟩
          rw [take_eq_take_append_sliceStr buf.value
              (lastIndexOfWhitespace buf.value buf.selectionEnd)
              (lastIndexOfWhitespace buf.value buf.selectionEnd + r.index) hS]
          rw [drop_eq_sliceStr_append_drop buf.value
              (lastIndexOfWhitespace buf.value buf.selectionEnd + r.index
                + (r.stop - r.index)) buf.selectionEnd hE hsel]
          simp [List.append_assoc]
      | true =>
          have hstep : substitutionStep? items buf it = none := by
            unfold substitutionStep?
            rw [hf]
            dsimp only
            rw [hany]
            simp
          rw [hstep]
          exact ⟨_, hunchanged⟩

/-- Witness for claim C8 as amended, at a concrete buffer and matcher. -/
theorem c8_edit_confined_to_window_witness :
    lastWordBlock ⟨("a b ").toList, 4, 4⟩
        = sliceStr (("a b ").toList) (lastIndexOfWhitespace (("a b ").toList) 4) 4
      ∧ ∃ mid,
          ((substitutionStep? [getSubstitutionRegExp (("b").toList) (("Z").toList)]
              ⟨("a b ").toList, 4, 4⟩
              (getSubstitutionRegExp (("b").toList) (("Z").toList))).getD
            ⟨("a b ").toList, 4, 4⟩).value
          = (("a b ").toList).take (lastIndexOfWhitespace (("a b ").toList) 4) ++ mid
            ++ (("a b ").toList).drop 4 :=
  c8_edit_confined_to_window [getSubstitutionRegExp (("b").toList) (("Z").toList)]
    ⟨("a b ").toList, 4, 4⟩ (getSubstitutionRegExp (("b").toList) (("Z").toList))
    (by decide)

/-- Claim C8, counterexample: in the buffer `a b ` with the caret at
offset 4, the most recent whitespace before the caret is the trailing
space at offset 3, so the claimed window is empty, starting at offset 4;
the code instead starts the window at offset 2 and its edit rewrites the
character at offset 2, before the claimed window. -/
theorem c8_counterexample_trailing_whitespace_window :
    specWindowStart (("a b ").toList) 4 = 4
      ∧ lastIndexOfWhitespace (("a b ").toList) 4 = 2
      ∧ (runSubstitutions [getSubstitutionRegExp (("b").toList) (("Z").toList)]
          ⟨("a b ").toList, 4, 4⟩).value = ("a Z ").toList
      ∧ (("a b ").toList).get? 2 = some 'b'
      ∧ ((runSubstitutions [getSubstitutionRegExp (("b").toList) (("Z").toList)]
          ⟨("a b ").toList, 4, 4⟩).value).get? 2 = some 'Z' := by
  decide

/-! ## Claims about the pattern compiler -/

/-- Claim C4 as amended: when the trigger starts with a boundary character
the compiled matcher imposes no left-boundary requirement (the first group
is empty), so matching succeeds even directly after a word character —
provided one word-or-boundary character follows the trigger, since the
right capture group must consume a character. -/
theorem c4_leading_boundary_no_left_requirement (matchStr replacement : Str)
    (h : startsWithWordBoundary matchStr = true) :
    (getSubstitutionRegExp matchStr replacement).g1 = RE.empty
      ∧ ∀ (pre : Str) (c : Char) (rest : Str),
          (if endsWithWordBoundary matchStr then isWordChar c || isWordBoundaryChar c
            else isWordBoundaryChar c) = true →
          (findMatch (getSubstitutionRegExp matchStr replacement)
            (pre ++ (matchStr ++ c :: rest))).isSome = true := by
  have hg1 : (getSubstitutionRegExp matchStr replacement).g1 = RE.empty := by
    simp [getSubstitutionRegExp, h]
  refine ⟨hg1, ?_⟩
  intro pre c rest hc
  rw [findMatch_isSome_iff]
  have hlen : pre.length ≤ (pre ++ (matchStr ++ c :: rest)).length := by
    rw [List.length_append]
    omega
  refine ⟨pre.length, hlen, ?_⟩
  rw [tryPattern_isSome_iff]
  refine ⟨pre.length, pre.length + matchStr.length,
    pre.length + matchStr.length + 1, ?_, ?_, ?_⟩
  · rw [hg1]
    simp [matchRE]
  · show pre.length + matchStr.length
        ∈ matchRE (getSubstitutionRegExp matchStr replacement).mid _ pre.length
    have hmid : (getSubstitutionRegExp matchStr replacement).mid = RE.lit matchStr := rfl
    rw [hmid]
    have hdrop : (pre ++ (matchStr ++ c :: rest)).drop pre.length = matchStr ++ c :: rest :=
      List.drop_left pre _
    simp only [matchRE, hdrop]
    rw [if_pos (List.isPrefixOf_iff_prefix.mpr (List.prefix_append _ _))]
    exact List.mem_singleton_self _
  · have hdrop2 : (pre ++ (matchStr ++ c :: rest)).drop (pre.length + matchStr.length)
        = c :: rest := by
      have hl : (pre ++ matchStr).length = pre.length + matchStr.length :=
        List.length_append pre matchStr
      rw [← List.append_assoc, ← hl]
      exact List.drop_left _ _
    show pre.length + matchStr.length + 1
        ∈ matchRE (getSubstitutionRegExp matchStr replacement).g2 _
            (pre.length + matchStr.length)
    unfold getSubstitutionRegExp
    dsimp only
    cases hend : endsWithWordBoundary matchStr with
    | false =>
        rw [hend] at hc
        simp only [if_false, Bool.false_eq_true, reduceIte] at hc ⊢
        simp [matchRE, hdrop2, hc]
    | true =>
        rw [hend] at hc
        simp only [if_true, reduceIte] at hc ⊢
        rw [Bool.or_eq_true] at hc
        rcases hc with hw | hb
        · simp [matchRE, hdrop2, hw]
        · simp [matchRE, hdrop2, hb]

/-- Claim C4, counterexample: the buffer `Big(tm)` does not match the
trigger `(tm)` — the right-boundary capture group must consume one
character, and nothing follows; with a trailing space the match
succeeds. -/
theorem c4_counterexample_trailing_char_required :
    findMatch (getSubstitutionRegExp (("(tm)").toList) (("T").toList))
        (("Big(tm)").toList) = none
      ∧ (findMatch (getSubstitutionRegExp (("(tm)").toList) (("T").toList))
          (("Big(tm) ").toList)).isSome = true := by
  decide

/-- Witness for claim C4 as amended, at the trigger of the claim. -/
theorem c4_leading_boundary_witness :
    (findMatch (getSubstitutionRegExp (("(tm)").toList) (("T").toList))
      (("Big").toList ++ (("(tm)").toList ++ ' ' :: []))).isSome = true :=
  (c4_leading_boundary_no_left_requirement (("(tm)").toList) (("T").toList)
    (by decide)).2 (("Big").toList) ' ' [] (by decide)

/-- Claim C5: a trigger with no leading and no trailing boundary character
matches when surrounded by single spaces and does not match bare. -/
theorem c5_interior_trigger_boundaries (matchStr replacement : Str)
    (h1 : startsWithWordBoundary matchStr = false)
    (h2 : endsWithWordBoundary matchStr = false) :
    (findMatch (getSubstitutionRegExp matchStr replacement)
        (' ' :: (matchStr ++ [' ']))).isSome = true
      ∧ findMatch (getSubstitutionRegExp matchStr replacement) matchStr = none := by
  have hg1 : (getSubstitutionRegExp matchStr replacement).g1
      = RE.alt RE.anchorStart (RE.cls isWordBoundaryChar) := by
    simp [getSubstitutionRegExp, h1]
  have hg2 : (getSubstitutionRegExp matchStr replacement).g2
      = RE.cls isWordBoundaryChar := by
    simp [getSubstitutionRegExp, h2]
  have hmid : (getSubstitutionRegExp matchStr replacement).mid = RE.lit matchStr := rfl
  have hsp : isWordBoundaryChar ' ' = true := by decide
  constructor
  · rw [findMatch_isSome_iff]
    refine ⟨0, Nat.zero_le _, ?_⟩
    rw [tryPattern_isSome_iff, hg1, hg2, hmid]
    refine ⟨1, 1 + matchStr.length, 1 + matchStr.length + 1, ?_, ?_, ?_⟩
    · simp [matchRE, hsp]
    · have hdrop : (' ' :: (matchStr ++ [' '])).drop 1 = matchStr ++ [' '] := rfl
      simp only [matchRE, hdrop]
      rw [if_pos (List.isPrefixOf_iff_prefix.mpr (List.prefix_append _ _))]
      exact List.mem_singleton_self _
    · have hdrop2 : (' ' :: (matchStr ++ [' '])).drop (1 + matchStr.length) = [' '] := by
        have hl : (' ' :: matchStr).length = 1 + matchStr.length := by
          rw [List.length_cons]
          omega
        have hassoc : ' ' :: (matchStr ++ [' ']) = (' ' :: matchStr) ++ [' '] := by
          simp
        rw [hassoc, ← hl]
        exact List.drop_left _ _
      simp [matchRE, hdrop2, hsp]
  · rw [findMatch_eq_none_iff]
    intro i hi
    cases hopt : tryPattern (getSubstitutionRegExp matchStr replacement) matchStr i with
    | none => rfl
    | some r =>
        exfalso
        have hsome : (tryPattern (getSubstitutionRegExp matchStr replacement)
            matchStr i).isSome = true := by
          rw [hopt]
          rfl
        rw [tryPattern_isSome_iff, hg1, hg2, hmid] at hsome
        obtain ⟨a, m, e, ha, hm, he⟩ := hsome
        simp only [matchRE, List.mem_append] at ha
        rcases ha with ha | ha
        · by_cases hi0 : i = 0
          · subst hi0
            simp only [if_true, reduceIte, List.mem_singleton] at ha
            subst ha
            have hself : matchStr.isPrefixOf (matchStr.drop 0) = true := by
              rw [List.drop_zero]
              exact List.isPrefixOf_iff_prefix.mpr (List.prefix_refl _)
            simp only [matchRE, hself, if_true, reduceIte, List.mem_singleton] at hm
            subst hm
            simp [matchRE, List.drop_length] at he
          · simp [hi0] at ha
        · cases hd : matchStr.drop i with
          | nil => rw [hd] at ha; cases ha
          | cons c restT =>
              rw [hd] at ha
              dsimp only at ha
              by_cases hbc : isWordBoundaryChar c = true
              · rw [if_pos hbc] at ha
                rw [List.mem_singleton] at ha
                subst ha
                have hTlen : i < matchStr.length := by
                  have hlen := congrArg List.length hd
                  rw [List.length_drop, List.length_cons] at hlen
                  omega
                have hpre : matchStr.isPrefixOf (matchStr.drop (i + 1)) = false := by
                  by_contra hp
                  rw [Bool.not_eq_false] at hp
                  have hle := (List.isPrefixOf_iff_prefix.mp hp).length_le
                  rw [List.length_drop] at hle
                  omega
                simp [matchRE, hpre] at hm
              · rw [if_neg hbc] at ha
                cases ha

/-- Witness for claim C5, at the trigger `abc`. -/
theorem c5_interior_trigger_boundaries_witness :
    (findMatch (getSubstitutionRegExp (("abc").toList) (("z").toList))
        (' ' :: ((("abc").toList) ++ [' ']))).isSome = true
      ∧ findMatch (getSubstitutionRegExp (("abc").toList) (("z").toList))
          (("abc").toList) = none :=
  c5_interior_trigger_boundaries (("abc").toList) (("z").toList) (by decide) (by decide)
